import Mathlib

/-
Verification of the expression-evaluation core of the dualcalc calculator
(src/utils/math.ts): factorial, decimalToFraction, formatResult and
evaluateExpression, together with the normalization pipeline that
evaluateExpression applies to its input string.

Modelling choices, shared by every definition below:

* A JavaScript number is modelled by the type JSVal alpha: a finite value
  carried by an ordered field alpha (the rationals for the exact parts of the
  code, the reals for the transcendental parts), plus signed infinity and NaN.
  Floating-point rounding and signed zero are not modelled; every concrete
  input used in a theorem below is small enough that the float64 run of the
  source performs the same exact arithmetic.
* Loops of the source are modelled by fuel-indexed structural recursion so
  that the kernel can evaluate them; the fuel bounds are proved sufficient
  where a claim depends on it.
* Transcendental library functions (Math.sin and friends) are modelled by
  their exact real counterparts.
-/

namespace DualCalc

/-- Model of a JavaScript number: a finite value, a signed infinity, or NaN. -/
inductive JSVal (α : Type) where
  | num (x : α)
  | inf (pos : Bool)
  | nan
deriving DecidableEq

namespace JSVal

variable {α : Type} [LinearOrderedField α]

/-- JS unary minus. -/
def neg : JSVal α → JSVal α
  | num x => num (-x)
  | inf p => inf (!p)
  | nan => nan

/-- JS addition. -/
def add : JSVal α → JSVal α → JSVal α
  | num a, num b => num (a + b)
  | num _, inf p => inf p
  | inf p, num _ => inf p
  | inf p, inf q => if p = q then inf p else nan
  | nan, _ => nan
  | _, nan => nan

/-- JS subtraction, a - b = a + (-b). -/
def sub (a b : JSVal α) : JSVal α := add a (neg b)

/-- JS multiplication. -/
def mul : JSVal α → JSVal α → JSVal α
  | num a, num b => num (a * b)
  | num a, inf p => if a = 0 then nan else if 0 < a then inf p else inf (!p)
  | inf p, num a => if a = 0 then nan else if 0 < a then inf p else inf (!p)
  | inf p, inf q => inf (p = q)
  | nan, _ => nan
  | _, nan => nan

/-- JS division (signed zero is not modelled: finite a / 0 gives the
infinity whose sign is the sign of a, and 0 / 0 gives NaN). -/
def div : JSVal α → JSVal α → JSVal α
  | num a, num b =>
      if b = 0 then (if a = 0 then nan else if 0 < a then inf true else inf false)
      else num (a / b)
  | num _, inf _ => num 0
  | inf p, num b => if b < 0 then inf (!p) else inf p
  | inf _, inf _ => nan
  | nan, _ => nan
  | _, nan => nan

/-- JS Math.floor. -/
def floor [FloorRing α] : JSVal α → JSVal α
  | num x => num (⌊x⌋ : α)
  | inf p => inf p
  | nan => nan

/-- JS Math.abs. -/
def abs : JSVal α → JSVal α
  | num x => num |x|
  | inf _ => inf true
  | nan => nan

/-- JS strict less-than (false whenever NaN is involved). -/
def lt : JSVal α → JSVal α → Bool
  | num a, num b => decide (a < b)
  | num _, inf p => p
  | inf p, num _ => !p
  | inf p, inf q => !p && q
  | nan, _ => false
  | _, nan => false

/-- JS less-or-equal (false whenever NaN is involved). -/
def le : JSVal α → JSVal α → Bool
  | num a, num b => decide (a ≤ b)
  | num _, inf p => p
  | inf p, num _ => !p
  | inf p, inf q => !p || q
  | nan, _ => false
  | _, nan => false

/-- JS strict greater-than. -/
def gt (a b : JSVal α) : Bool := lt b a

/-- JS isFinite on a number value. -/
def isFinite : JSVal α → Bool
  | num _ => true
  | _ => false

/-- JS isNaN on a number value. -/
def isNaN : JSVal α → Bool
  | nan => true
  | _ => false

/-- The finite value carried by a JSVal (0 for infinity and NaN). -/
def toVal : JSVal α → α
  | num x => x
  | _ => 0

end JSVal

/-- The angle-mode flag of the calculator (src/types: deg or rad). -/
inductive AngleMode where
  | deg
  | rad
deriving DecidableEq

/-- The iterative loop of factorial in src/utils/math.ts:
for (let i = 2; i &lt;= n; i++) result *= i.  The fuel argument is an upper
bound on the number of remaining iterations; factorial passes a provably
sufficient bound. -/
def factLoop : ℕ → ℚ → ℕ → ℚ → ℚ
  | 0, _, _, r => r
  | fuel + 1, n, i, r => if (i : ℚ) ≤ n then factLoop fuel n (i + 1) (r * i) else r

/-- factorial from src/utils/math.ts: NaN for negative input, 1 for 0 and 1,
otherwise the iterative product starting at i = 2 (for a non-integer n the
loop bound i &lt;= n truncates, exactly as the source loop does). -/
def factorial (n : ℚ) : JSVal ℚ :=
  if n < 0 then .nan
  else if n = 0 ∨ n = 1 then .num 1
  else .num (factLoop (⌊n⌋.toNat) n 2 1)

/-- A natural number is exactly representable as a float64: it is
m * 2 ^ e with m below 2 ^ 53 (m is then forced to be N / 2 ^ e). -/
def float64Exact (N : ℕ) : Prop :=
  ∃ e, e < 64 ∧ N / 2 ^ e < 2 ^ 53 ∧ N = (N / 2 ^ e) * 2 ^ e

/-- Digits of the fractional part of a nonnegative rational, used only to
render a non-integer number as decimal text (approximation of the JS
number-to-string conversion; no claim depends on this rendering). -/
def fracDigits : ℕ → ℚ → List Char
  | 0, _ => []
  | fuel + 1, f =>
      if f = 0 then []
      else
        let f10 := f * 10
        Char.ofNat (48 + (⌊f10⌋).toNat) :: fracDigits fuel (f10 - ⌊f10⌋)

/-- Decimal rendering of a rational number. -/
def ratDecimalString (q : ℚ) : String :=
  let sgn := if q < 0 then "-" else ""
  let aq := |q|
  let ip := ⌊aq⌋
  let fp := aq - ip
  if fp = 0 then sgn ++ toString ip
  else sgn ++ toString ip ++ "." ++ (fracDigits 17 fp).asString

/-- JS String(x) for a number value x (integers render without a point,
Infinity and NaN render by name). -/
def jsNumToString : JSVal ℚ → String
  | .num q => if q.den = 1 then toString q.num else ratDecimalString q
  | .inf true => "Infinity"
  | .inf false => "-Infinity"
  | .nan => "NaN"

/-- The mutable locals of the continued-fraction loop of decimalToFraction
(src/utils/math.ts lines 44-56): the convergent accumulators h1 h2 k1 k2 and
the running remainder b. -/
structure FracState where
  h1 : JSVal ℚ
  h2 : JSVal ℚ
  k1 : JSVal ℚ
  k2 : JSVal ℚ
  b : JSVal ℚ
deriving DecidableEq

/-- Initial loop state: h1 = 1, h2 = 0, k1 = 0, k2 = 1, b = absValue. -/
def fracInit (value : ℚ) : FracState :=
  ⟨.num 1, .num 0, .num 0, .num 1, .num |value|⟩

/-- One iteration of the do-while body: a = floor(b); h1 = a*h1 + h2;
h2 = old h1; k1 = a*k1 + k2; k2 = old k1; b = 1 / (b - a). -/
def fracStep (s : FracState) : FracState :=
  let a := s.b.floor
  { h1 := (a.mul s.h1).add s.h2
    h2 := s.h1
    k1 := (a.mul s.k1).add s.k2
    k2 := s.k1
    b := (JSVal.num 1).div (s.b.sub a) }

/-- The error expression Math.abs(value - sign * h1 / k1) of the loop
condition and of the post-loop check. -/
def fracErr (value sign : ℚ) (s : FracState) : JSVal ℚ :=
  ((JSVal.num value).sub (((JSVal.num sign).mul s.h1).div s.k1)).abs

/-- The do-while condition:
Math.abs(value - sign*h1/k1) &gt; value * tolerance and k1 &lt;= maxDenominator.
Note that the right-hand side of the first comparison is the signed value
times the tolerance, exactly as in the source. -/
def fracCond (value tol cap sign : ℚ) (s : FracState) : Bool :=
  (fracErr value sign s).gt (.num (value * tol)) && s.k1.le (.num cap)

/-- The do-while loop, fuel-indexed: run one step, continue while the
condition holds.  Returns none on fuel exhaustion; decimalToFraction passes
a fuel proved sufficient (theorem fracLoop_isSome below). -/
def fracLoop (value tol cap sign : ℚ) : ℕ → FracState → Option FracState
  | 0, _ => none
  | fuel + 1, s =>
      let s1 := fracStep s
      if fracCond value tol cap sign s1 then fracLoop value tol cap sign fuel s1
      else some s1

/-- decimalToFraction from src/utils/math.ts.  The default arguments of the
source are tolerance = 1e-9 and maxDenominator = 1000000; callers below pass
them explicitly.  The inf and nan branches are the early return for
!isFinite(value); the den = 1 test is Number.isInteger(value). -/
def decimalToFraction (value : JSVal ℚ) (tolerance maxDenominator : ℚ) :
    JSVal ℚ ⊕ String :=
  match value with
  | .inf p => .inl (.inf p)
  | .nan => .inl .nan
  | .num q =>
      if q.den = 1 then .inl (.num q)
      else
        let sign : ℚ := if q < 0 then -1 else 1
        match fracLoop q tolerance maxDenominator sign (q.den + 3) (fracInit q) with
        | none => .inl (.num q)
        | some s =>
            if s.k1.gt (.num maxDenominator) ||
                (fracErr q sign s).gt (.num tolerance) then .inl (.num q)
            else .inr (jsNumToString ((JSVal.num sign).mul s.h1) ++ "/" ++
              jsNumToString s.k1)

/-- Number.EPSILON * 1000 (Number.EPSILON is exactly 2 ^ (-52)). -/
def epsilon1000 : ℚ := (1 / 2 ^ 52) * 1000

/-- JS Math.round on a finite value: floor(x + 1/2). -/
def jsRound (q : ℚ) : ℤ := ⌊q + 1 / 2⌋

/-- Integer power of ten as a rational. -/
def pow10 (e : ℤ) : ℚ := (10 : ℚ) ^ e

/-- The decimal exponent of a positive rational: the unique e with
10 ^ e &lt;= q &lt; 10 ^ (e + 1), computed from the digit counts of the
numerator and denominator. -/
def exp10 (q : ℚ) : ℤ :=
  let da := (Nat.repr q.num.natAbs).length
  let db := (Nat.repr q.den).length
  let e : ℤ := da - db
  if q < pow10 e then e - 1 else e

/-- Model of parseFloat(x.toPrecision(15)): round to 15 significant decimal
digits.  (toPrecision formats and parseFloat reads back; the composed effect
on the value is rounding at the 15th significant digit.) -/
def toPrecision15 (q : ℚ) : ℚ :=
  if q = 0 then 0
  else
    let sgn : ℚ := if q < 0 then -1 else 1
    let aq := |q|
    let e := exp10 aq
    sgn * (jsRound (aq / pow10 (e - 14)) : ℚ) * pow10 (e - 14)

/-- formatResult from src/utils/math.ts.  Error strings pass through; a
non-finite number yields the division message.  Because JS isFinite(NaN) is
false, the isNaN test that follows can never fire for a number value: it is
kept here exactly as in the source, as a dead branch.  A finite value snaps
to the nearest integer within EPSILON*1000, else is rounded to 15
significant digits and offered to decimalToFraction. -/
def formatResult : JSVal ℚ ⊕ String → String
  | .inr s => s
  | .inl v =>
      if ¬ v.isFinite then "Can\x27t divide by 0"
      else if v.isNaN then "Invalid Input"
      else
        let q := v.toVal
        if |q - (jsRound q : ℚ)| < epsilon1000 then toString (jsRound q)
        else
          match decimalToFraction (.num (toPrecision15 q)) (1 / 10 ^ 9) 1000000 with
          | .inr s => s
          | .inl w => jsNumToString w

/-- The divisor b - floor(b) of the division performed by fracStep: the
statement that the source divides by zero at some iteration is the statement
that this value is the number 0 there. -/
def fracDivisor (s : FracState) : JSVal ℚ := s.b.sub s.b.floor

/-- Invariant of the loop states reached after the first iteration of the
continued-fraction loop: the convergent accumulators are nonnegative
integers with k1 at least 1, h1 and h2 not both zero, and the remainder b is
either a finite value above 1 or positive infinity. -/
def FracInv (s : FracState) : Prop :=
  ∃ u v x y : ℤ,
    s.h1 = .num (u : ℚ) ∧ s.h2 = .num (v : ℚ) ∧
    s.k1 = .num (x : ℚ) ∧ s.k2 = .num (y : ℚ) ∧
    0 ≤ u ∧ 0 ≤ v ∧ (0 < u ∨ 0 < v) ∧ 1 ≤ x ∧ 0 ≤ y ∧
    ((∃ q : ℚ, s.b = .num q ∧ 1 < q) ∨ s.b = .inf true)

/-- Termination measure of the continued-fraction loop: the numerator of the
fractional part of b (the standard continued-fraction descent), plus one for
states whose b is still finite. -/
def fracMeasure (s : FracState) : ℕ :=
  match s.b with
  | .num q => (Int.fract q).num.toNat + 1
  | _ => 0

/-- Shape of the state in which the loop exits: either the convergent
accumulators are still finite with k1 at least 1, or k1 has become positive
infinity (in which case the post-loop cap check rejects). -/
def FracExitShape (s : FracState) : Prop :=
  (∃ u x : ℤ, s.h1 = .num (u : ℚ) ∧ s.k1 = .num (x : ℚ) ∧ 1 ≤ x) ∨ s.k1 = .inf true

/-! ### The expression normalizer (evaluateExpression steps 1 to 4) -/

/-- The whitespace class stripped by step 1 of evaluateExpression.  The
ASCII part of the JS regex class: the source also strips Unicode whitespace
such as the no-break space; no input considered here contains any. -/
def isWSCh (c : Char) : Bool :=
  c = ' ' || c = '\t' || c = '\n' || c = '\r' || c = '\x0b' || c = '\x0c'

/-- The digit class of the source regexes (0 to 9). -/
def isDigitCh (c : Char) : Bool := 48 ≤ c.toNat && c.toNat ≤ 57

/-- The letter class of the source regexes (a to z and A to Z). -/
def isAlphaCh (c : Char) : Bool :=
  (65 ≤ c.toNat && c.toNat ≤ 90) || (97 ≤ c.toNat && c.toNat ≤ 122)

/-- Step 1: strip all whitespace. -/
def stripWhitespace (cs : List Char) : List Char := cs.filter (fun c => !isWSCh c)

/-- One-character-for-one-character global replacement. -/
def mapChar (a b : Char) (cs : List Char) : List Char :=
  cs.map (fun c => if c = a then b else c)

/-- One-character-for-several-characters global replacement. -/
def expandChar (a : Char) (r : List Char) : List Char → List Char
  | [] => []
  | c :: cs => if c = a then r ++ expandChar a r cs else c :: expandChar a r cs

/-- The standalone-e replacement of step 2: replace e by E when the previous
character of the input is not a digit or a point, and the next character is
not a digit, plus or minus (the lookbehind and lookahead of the source
regex).  The first argument carries the previous input character. -/
def eSubAux : Option Char → List Char → List Char
  | _, [] => []
  | prev, c :: cs =>
      if c = 'e' &&
          (match prev with
           | none => true
           | some p => !(isDigitCh p || p = '.')) &&
          (match cs with
           | [] => true
           | d :: _ => !(isDigitCh d || d = '+' || d = '-')) then
        'E' :: eSubAux (some 'e') cs
      else c :: eSubAux (some c) cs

/-- The double-minus collapse of step 2: each non-overlapping occurrence of
minus-minus becomes a plus, scanning left to right. -/
def collapseDoubleMinus : List Char → List Char
  | '-' :: '-' :: cs => '+' :: collapseDoubleMinus cs
  | c :: cs => c :: collapseDoubleMinus cs
  | [] => []

/-- One global regex replacement pass inserting a star between a character
matched by m1 and a character matched by m2, scanning left to right with
non-overlapping matches (both matched characters are consumed, as the source
regexes consume them). -/
def insertStarPass (m1 m2 : Char → Bool) : List Char → List Char
  | c1 :: c2 :: cs =>
      if m1 c1 && m2 c2 then c1 :: '*' :: c2 :: insertStarPass m1 m2 cs
      else c1 :: insertStarPass m1 m2 (c2 :: cs)
  | cs => cs

/-- Non-consuming variant of an insertion pass: walk the string one
character at a time and insert a star between every adjacent pair matched by
m1 and m2.  When no character matched by m2 is matched by m1 — true of all
three passes of the source — this walk agrees with the consuming
left-to-right regex pass (lemma insertStarPass_eq_walk below). -/
def walkInsert (m1 m2 : Char → Bool) : List Char → List Char
  | c1 :: c2 :: cs =>
      if m1 c1 && m2 c2 then c1 :: '*' :: walkInsert m1 m2 (c2 :: cs)
      else c1 :: walkInsert m1 m2 (c2 :: cs)
  | cs => cs

/-- Implicit-multiplication case 1: digit followed by a letter or an open
parenthesis. -/
def insertMult1 : List Char → List Char :=
  insertStarPass (fun c => isDigitCh c) (fun c => isAlphaCh c || c = '(')

/-- Implicit-multiplication case 2: close parenthesis followed by a digit,
letter or open parenthesis. -/
def insertMult2 : List Char → List Char :=
  insertStarPass (fun c => c = ')') (fun c => isAlphaCh c || isDigitCh c || c = '(')

/-- Implicit-multiplication case 3: factorial mark followed by a digit,
letter or open parenthesis. -/
def insertMult3 : List Char → List Char :=
  insertStarPass (fun c => c = '!') (fun c => isAlphaCh c || isDigitCh c || c = '(')

/-- The three implicit-multiplication passes in the order the source applies
them. -/
def insertImplicitMult (cs : List Char) : List Char :=
  insertMult3 (insertMult2 (insertMult1 cs))

/-- Specification-side definition of implicit multiplication, following the
words of the spec: walk the string once and insert a multiply sign between
every adjacent pair of characters falling in one of exactly three cases —
(a) digit then letter or open parenthesis, (b) close parenthesis then digit,
letter or open parenthesis, (c) factorial mark then digit, letter or open
parenthesis. -/
def specInsertMult : List Char → List Char
  | c1 :: c2 :: cs =>
      if (isDigitCh c1 && (isAlphaCh c2 || c2 = '(')) ||
          (c1 = ')' && (isAlphaCh c2 || isDigitCh c2 || c2 = '(')) ||
          (c1 = '!' && (isAlphaCh c2 || isDigitCh c2 || c2 = '(')) then
        c1 :: '*' :: specInsertMult (c2 :: cs)
      else c1 :: specInsertMult (c2 :: cs)
  | cs => cs

/-- The walking form of pass 1. -/
def walkA (cs : List Char) : List Char :=
  walkInsert (fun c => isDigitCh c) (fun c => isAlphaCh c || c = '(') cs

/-- The walking form of pass 2. -/
def walkB (cs : List Char) : List Char :=
  walkInsert (fun c => c = ')') (fun c => isAlphaCh c || isDigitCh c || c = '(') cs

/-- The walking form of pass 3. -/
def walkC (cs : List Char) : List Char :=
  walkInsert (fun c => c = '!') (fun c => isAlphaCh c || isDigitCh c || c = '(') cs

/-- The value of a digit run. -/
def digitsToNat (ds : List Char) : ℕ :=
  ds.foldl (fun a c => a * 10 + (c.toNat - 48)) 0

/-- The replacement text for a matched literal factorial: the factorial of
the literal value, rendered as a number (step 4 of evaluateExpression calls
String(factorial(Number(num)))). -/
def renderFact (ip fp : List Char) : List Char :=
  let n : ℚ := (digitsToNat ip : ℚ) + (digitsToNat fp : ℚ) / 10 ^ fp.length
  (jsNumToString (factorial n)).toList

/-- Step 4: replace every literal-factorial occurrence (an integer or
decimal literal directly followed by an exclamation mark) by the rendered
factorial of the literal, scanning left to right; on a failed match the scan
advances one character, as the source regex engine does. -/
def factPass : ℕ → List Char → List Char
  | 0, cs => cs
  | fuel + 1, cs =>
      match cs with
      | [] => []
      | c :: rest =>
          if isDigitCh c then
            let ip := (c :: rest).takeWhile (fun d => isDigitCh d)
            let r1 := (c :: rest).dropWhile (fun d => isDigitCh d)
            match r1 with
            | '.' :: d :: r2 =>
                if isDigitCh d then
                  let fp := (d :: r2).takeWhile (fun d2 => isDigitCh d2)
                  let r3 := (d :: r2).dropWhile (fun d2 => isDigitCh d2)
                  match r3 with
                  | '!' :: r4 => renderFact ip fp ++ factPass fuel r4
                  | _ => c :: factPass fuel rest
                else c :: factPass fuel rest
            | '!' :: r4 => renderFact ip [] ++ factPass fuel r4
            | _ => c :: factPass fuel rest
          else c :: factPass fuel rest

/-- The full normalization pipeline of evaluateExpression (steps 1 to 4),
in source order: strip whitespace; replace the times and divide glyphs, pi,
standalone e, phi, caret, root glyph (the abs-to-abs replacement of the
source is the identity and is omitted), collapse double minus; insert
implicit multiplication; precompute literal factorials. -/
def normalize (s : String) : String :=
  let cs0 := stripWhitespace s.toList
  let cs1 := mapChar '×' '*' cs0
  let cs2 := mapChar '÷' '/' cs1
  let cs3 := expandChar 'π' ['P', 'I'] cs2
  let cs4 := eSubAux none cs3
  let cs5 := expandChar 'φ' ['P', 'H', 'I'] cs4
  let cs6 := expandChar '^' ['*', '*'] cs5
  let cs7 := expandChar '√' ['s', 'q', 'r', 't'] cs6
  let cs8 := collapseDoubleMinus cs7
  let cs9 := insertImplicitMult cs8
  ⟨factPass (cs9.length + 1) cs9⟩

/-! ### The expression evaluator (evaluateExpression step 5) -/

/-- Tokens of the evaluated expression language: the number literals,
identifiers, operator and parenthesis tokens that can appear in a normalized
expression. -/
inductive Tok where
  | tnum (q : ℚ)
  | tid (s : String)
  | tplus
  | tminus
  | tstar
  | tslash
  | tpow
  | tlp
  | trp
deriving DecidableEq

/-- Lex a numeric literal: digits, an optional fractional part, and an
optional exponent part which then requires at least one digit (as the JS
numeric-literal grammar does).  Returns the value and the rest of the
input. -/
def lexNumber (cs : List Char) : Except Unit (ℚ × List Char) :=
  let ip := cs.takeWhile (fun c => isDigitCh c)
  let r1 := cs.dropWhile (fun c => isDigitCh c)
  let withFrac : Except Unit (ℚ × List Char) :=
    match r1 with
    | '.' :: r2 =>
        let fp := r2.takeWhile (fun c => isDigitCh c)
        let r3 := r2.dropWhile (fun c => isDigitCh c)
        if ip.isEmpty && fp.isEmpty then .error ()
        else .ok ((digitsToNat ip : ℚ) + (digitsToNat fp : ℚ) / 10 ^ fp.length, r3)
    | _ =>
        if ip.isEmpty then .error ()
        else .ok ((digitsToNat ip : ℚ), r1)
  match withFrac with
  | .error _ => .error ()
  | .ok (q, r3) =>
      match r3 with
      | 'e' :: r4 =>
          match r4 with
          | '+' :: r5 =>
              let ed := r5.takeWhile (fun c => isDigitCh c)
              if ed.isEmpty then .error ()
              else .ok (q * 10 ^ (digitsToNat ed), r5.dropWhile (fun c => isDigitCh c))
          | '-' :: r5 =>
              let ed := r5.takeWhile (fun c => isDigitCh c)
              if ed.isEmpty then .error ()
              else .ok (q / 10 ^ (digitsToNat ed), r5.dropWhile (fun c => isDigitCh c))
          | _ =>
              let ed := r4.takeWhile (fun c => isDigitCh c)
              if ed.isEmpty then .error ()
              else .ok (q * 10 ^ (digitsToNat ed), r4.dropWhile (fun c => isDigitCh c))
      | 'E' :: r4 =>
          match r4 with
          | '+' :: r5 =>
              let ed := r5.takeWhile (fun c => isDigitCh c)
              if ed.isEmpty then .error ()
              else .ok (q * 10 ^ (digitsToNat ed), r5.dropWhile (fun c => isDigitCh c))
          | '-' :: r5 =>
              let ed := r5.takeWhile (fun c => isDigitCh c)
              if ed.isEmpty then .error ()
              else .ok (q / 10 ^ (digitsToNat ed), r5.dropWhile (fun c => isDigitCh c))
          | _ =>
              let ed := r4.takeWhile (fun c => isDigitCh c)
              if ed.isEmpty then .error ()
              else .ok (q * 10 ^ (digitsToNat ed), r4.dropWhile (fun c => isDigitCh c))
      | _ => .ok (q, r3)

/-- The tokenizer: numbers, identifiers (a letter followed by letters or
digits, as in JS), the operator characters, and parentheses; any other
character is a lexical error (which surfaces as the format error, exactly as
a JS SyntaxError thrown by the constructed function is caught and mapped). -/
def lexer : ℕ → List Char → Except Unit (List Tok)
  | 0, _ => .error ()
  | _, [] => .ok []
  | fuel + 1, c :: cs =>
      if c = '+' then (lexer fuel cs).map (fun ts => .tplus :: ts)
      else if c = '-' then (lexer fuel cs).map (fun ts => .tminus :: ts)
      else if c = '*' then
        match cs with
        | '*' :: cs2 => (lexer fuel cs2).map (fun ts => .tpow :: ts)
        | _ => (lexer fuel cs).map (fun ts => .tstar :: ts)
      else if c = '/' then (lexer fuel cs).map (fun ts => .tslash :: ts)
      else if c = '(' then (lexer fuel cs).map (fun ts => .tlp :: ts)
      else if c = ')' then (lexer fuel cs).map (fun ts => .trp :: ts)
      else if isDigitCh c || c = '.' then
        match lexNumber (c :: cs) with
        | .error _ => .error ()
        | .ok (q, rest) => (lexer fuel rest).map (fun ts => .tnum q :: ts)
      else if isAlphaCh c then
        let name := c :: cs.takeWhile (fun d => isAlphaCh d || isDigitCh d)
        let rest := cs.dropWhile (fun d => isAlphaCh d || isDigitCh d)
        (lexer fuel rest).map (fun ts => .tid ⟨name⟩ :: ts)
      else .error ()

/-- The function names of the evaluation scope. -/
inductive FuncName where
  | sin
  | cos
  | tan
  | csc
  | sec
  | cot
  | log
  | ln
  | sqrt
  | abs
deriving DecidableEq

/-- The constant names of the evaluation scope. -/
inductive ConstName where
  | PI
  | E
  | PHI
deriving DecidableEq

/-- Abstract syntax of the evaluated expressions. -/
inductive AST where
  | lit (q : ℚ)
  | cst (c : ConstName)
  | neg (a : AST)
  | add (a b : AST)
  | sub (a b : AST)
  | mul (a b : AST)
  | div (a b : AST)
  | pow (a b : AST)
  | call (f : FuncName) (a : AST)
deriving DecidableEq

/-- Resolve an identifier to a constant of the evaluation scope. -/
def constOfName (s : String) : Option ConstName :=
  if s = "PI" then some .PI
  else if s = "E" then some .E
  else if s = "PHI" then some .PHI
  else none

/-- Resolve an identifier to a function of the evaluation scope. -/
def funcOfName (s : String) : Option FuncName :=
  if s = "sin" then some .sin
  else if s = "cos" then some .cos
  else if s = "tan" then some .tan
  else if s = "csc" then some .csc
  else if s = "sec" then some .sec
  else if s = "cot" then some .cot
  else if s = "log" then some .log
  else if s = "ln" then some .ln
  else if s = "sqrt" then some .sqrt
  else if s = "abs" then some .abs
  else none

/-- Recursive-descent/JS-grammar structure of the evaluated expression
language, as one fuel-indexed function; the mode selects the grammar level:
0 full expression, 1 additive chain (left associative, acc is the left
operand), 2 multiplicative entry, 3 multiplicative chain, 4 unary sign
(a sign directly followed by an exponentiation is a syntax error, as in JS),
5 exponentiation (right associative), above 5 a primary: a literal, a
constant, a function call, or a parenthesized expression; an identifier
outside the scope is an error, as the constructed function of the source
throws a ReferenceError for it. -/
def parseF : ℕ → ℕ → AST → List Tok → Except Unit (AST × List Tok)
  | 0, _, _, _ => .error ()
  | fuel + 1, mode, acc, toks =>
      match mode with
      | 0 => do
          let (a, r) ← parseF fuel 2 acc toks
          parseF fuel 1 a r
      | 1 =>
          match toks with
          | .tplus :: r => do
              let (b, r2) ← parseF fuel 2 acc r
              parseF fuel 1 (.add acc b) r2
          | .tminus :: r => do
              let (b, r2) ← parseF fuel 2 acc r
              parseF fuel 1 (.sub acc b) r2
          | _ => .ok (acc, toks)
      | 2 => do
          let (a, r) ← parseF fuel 4 acc toks
          parseF fuel 3 a r
      | 3 =>
          match toks with
          | .tstar :: r => do
              let (b, r2) ← parseF fuel 4 acc r
              parseF fuel 3 (.mul acc b) r2
          | .tslash :: r => do
              let (b, r2) ← parseF fuel 4 acc r
              parseF fuel 3 (.div acc b) r2
          | _ => .ok (acc, toks)
      | 4 =>
          match toks with
          | .tminus :: r => do
              let (b, r2) ← parseF fuel 4 acc r
              match r2 with
              | .tpow :: _ => .error ()
              | _ => .ok (.neg b, r2)
          | .tplus :: r => do
              let (b, r2) ← parseF fuel 4 acc r
              match r2 with
              | .tpow :: _ => .error ()
              | _ => .ok (b, r2)
          | _ => parseF fuel 5 acc toks
      | 5 => do
          let (a, r) ← parseF fuel 6 acc toks
          match r with
          | .tpow :: r2 => do
              let (b, r3) ← parseF fuel 4 acc r2
              .ok (.pow a b, r3)
          | _ => .ok (a, r)
      | _ =>
          match toks with
          | .tnum q :: r => .ok (.lit q, r)
          | .tid s :: r =>
              match constOfName s with
              | some c => .ok (.cst c, r)
              | none =>
                  match funcOfName s with
                  | some f =>
                      match r with
                      | .tlp :: r2 => do
                          let (a, r3) ← parseF fuel 0 acc r2
                          match r3 with
                          | .trp :: r4 => .ok (.call f a, r4)
                          | _ => .error ()
                      | _ => .error ()
                  | none => .error ()
          | .tlp :: r => do
              let (a, r2) ← parseF fuel 0 acc r
              match r2 with
              | .trp :: r3 => .ok (a, r3)
              | _ => .error ()
          | _ => .error ()

/-- Tokenize and parse a normalized expression; trailing tokens after a
complete expression are a syntax error. -/
def parse (s : String) : Except Unit AST :=
  let cs := s.toList
  match lexer (cs.length + 1) cs with
  | .error _ => .error ()
  | .ok ts =>
      match parseF (8 * (ts.length + 1)) 0 (.lit 0) ts with
      | .error _ => .error ()
      | .ok (a, []) => .ok a
      | .ok (_, _ :: _) => .error ()

/-- The transcendental part of the evaluation scope, abstract in the number
carrier. -/
structure TransLib (α : Type) where
  sin : JSVal α → JSVal α
  cos : JSVal α → JSVal α
  tan : JSVal α → JSVal α
  log10 : JSVal α → JSVal α
  ln : JSVal α → JSVal α
  sqrt : JSVal α → JSVal α
  pi : α
  e : α
  phi : α

/-- The degree-to-radian conversion wrapper of the evaluation scope: in
degree mode multiply the argument by pi / 180 before the trig function, in
radian mode pass it through unchanged (the body built by the source reads
angleMode === deg ? x * degToRad : x with degToRad = Math.PI / 180). -/
def trigArg {α : Type} [LinearOrderedField α] (lib : TransLib α) (mode : AngleMode)
    (x : JSVal α) : JSVal α :=
  match mode with
  | .deg => x.mul (.num (lib.pi / 180))
  | .rad => x

/-- JS Math.sin on a number value (NaN on an infinite argument). -/
noncomputable def jsSin : JSVal ℝ → JSVal ℝ
  | .num a => .num (Real.sin a)
  | _ => .nan

/-- JS Math.cos on a number value. -/
noncomputable def jsCos : JSVal ℝ → JSVal ℝ
  | .num a => .num (Real.cos a)
  | _ => .nan

/-- JS Math.tan on a number value. -/
noncomputable def jsTan : JSVal ℝ → JSVal ℝ
  | .num a => .num (Real.tan a)
  | _ => .nan

/-- JS Math.sqrt: NaN on negative or NaN arguments. -/
noncomputable def jsSqrt : JSVal ℝ → JSVal ℝ
  | .num a => if a < 0 then .nan else .num (Real.sqrt a)
  | .inf true => .inf true
  | .inf false => .nan
  | .nan => .nan

/-- JS Math.log10: NaN below zero, negative infinity at zero. -/
noncomputable def jsLog10 : JSVal ℝ → JSVal ℝ
  | .num a => if a < 0 then .nan else if a = 0 then .inf false
      else .num (Real.log a / Real.log 10)
  | .inf true => .inf true
  | .inf false => .nan
  | .nan => .nan

/-- JS Math.log (natural): NaN below zero, negative infinity at zero. -/
noncomputable def jsLn : JSVal ℝ → JSVal ℝ
  | .num a => if a < 0 then .nan else if a = 0 then .inf false else .num (Real.log a)
  | .inf true => .inf true
  | .inf false => .nan
  | .nan => .nan

/-- JS exponentiation on number values (the cases of Math.pow; negative base
with a non-integer exponent is NaN). -/
noncomputable def jsPow : JSVal ℝ → JSVal ℝ → JSVal ℝ
  | .num a, .num b =>
      if b = 0 then .num 1
      else if a = 0 then (if b < 0 then .inf true else .num 0)
      else if a < 0 then
        (if Int.fract b = 0 then .num (a ^ ⌊b⌋) else .nan)
      else .num (Real.rpow a b)
  | .nan, .num b => if b = 0 then .num 1 else .nan
  | .num _, .nan => .nan
  | .inf p, .num b =>
      if b = 0 then .num 1
      else if b < 0 then .num 0
      else if p then .inf true
      else if Int.fract b = 0 ∧ Odd ⌊b⌋ then .inf false else .inf true
  | .num a, .inf p =>
      if |a| = 1 then .nan
      else if p then (if 1 < |a| then .inf true else .num 0)
      else (if 1 < |a| then .num 0 else .inf true)
  | .inf _, .inf p => if p then .inf true else .num 0
  | .nan, .inf _ => .nan
  | .inf _, .nan => .nan
  | .nan, .nan => .nan

/-- The evaluation scope of the source over the exact reals: Math.sin and
friends, log base ten and natural log, and the constants Math.PI, Math.E
and PHI = (1 + sqrt 5) / 2. -/
noncomputable def realLib : TransLib ℝ where
  sin := jsSin
  cos := jsCos
  tan := jsTan
  log10 := jsLog10
  ln := jsLn
  sqrt := jsSqrt
  pi := Real.pi
  e := Real.exp 1
  phi := (1 + Real.sqrt 5) / 2

/-- Evaluation of a parsed expression in the scope built by the source:
sin, cos and tan apply the angle-mode conversion to their argument; csc, sec
and cot are one divided by the corresponding trig function of the converted
argument (reciprocal taken after the trig function); log, ln, sqrt and abs
take the raw argument. -/
noncomputable def evalAST (lib : TransLib ℝ) (mode : AngleMode) : AST → JSVal ℝ
  | .lit q => .num (q : ℝ)
  | .cst .PI => .num lib.pi
  | .cst .E => .num lib.e
  | .cst .PHI => .num lib.phi
  | .neg a => (evalAST lib mode a).neg
  | .add a b => (evalAST lib mode a).add (evalAST lib mode b)
  | .sub a b => (evalAST lib mode a).sub (evalAST lib mode b)
  | .mul a b => (evalAST lib mode a).mul (evalAST lib mode b)
  | .div a b => (evalAST lib mode a).div (evalAST lib mode b)
  | .pow a b => jsPow (evalAST lib mode a) (evalAST lib mode b)
  | .call f a =>
      let x := evalAST lib mode a
      match f with
      | .sin => lib.sin (trigArg lib mode x)
      | .cos => lib.cos (trigArg lib mode x)
      | .tan => lib.tan (trigArg lib mode x)
      | .csc => (JSVal.num 1).div (lib.sin (trigArg lib mode x))
      | .sec => (JSVal.num 1).div (lib.cos (trigArg lib mode x))
      | .cot => (JSVal.num 1).div (lib.tan (trigArg lib mode x))
      | .log => lib.log10 x
      | .ln => lib.ln x
      | .sqrt => lib.sqrt x
      | .abs => x.abs

/-- evaluateExpression from src/utils/math.ts: the empty expression is 0; a
normalization or parse or scope error surfaces as Format Error (the catch
branch of the source); a non-finite numeric result is the divide-by-zero
message; a NaN result would be Invalid Input — but, as in formatResult, JS
isFinite(NaN) is false, so NaN is already taken by the non-finite branch and
the isNaN test is dead for number results; every other number is returned as
the result.  Modelling scope: the source runs the sanitized string through
new Function, which executes arbitrary JavaScript; this embedding evaluates
the supported grammar only, so it is faithful exactly for in-grammar input.
For out-of-grammar input the source can instead reach host globals, hang,
or abort — behavior no value of this model represents; the consequences are
recorded with the C1 and C3 claims. -/
noncomputable def evaluateExpression (expression : String) (angleMode : AngleMode) :
    JSVal ℝ ⊕ String :=
  if expression = "" then .inl (.num 0)
  else
    match parse (normalize expression) with
    | .error _ => .inr "Format Error"
    | .ok ast =>
        let result := evalAST realLib angleMode ast
        if ¬ result.isFinite then .inr "Can\x27t divide by 0"
        else if result.isNaN then .inr "Invalid Input"
        else .inl result

/-! ### Supporting lemmas about the factorial loop -/

lemma factLoop_eq (fuel : ℕ) : ∀ (m i : ℕ) (r : ℚ), m + 1 ≤ i + fuel →
    factLoop fuel (m : ℚ) i r = r * ∏ j in Finset.Ico i (m + 1), (j : ℚ) := by
  induction fuel with
  | zero =>
      intro m i r h
      rw [factLoop, Finset.Ico_eq_empty (by omega), Finset.prod_empty, mul_one]
  | succ fuel ih =>
      intro m i r h
      rw [factLoop]
      by_cases him : i ≤ m
      · rw [if_pos (by exact_mod_cast him)]
        rw [ih m (i + 1) (r * i) (by omega)]
        rw [Finset.prod_eq_prod_Ico_succ_bot (by omega : i < m + 1)]
        ring
      · rw [if_neg (by exact_mod_cast him)]
        rw [Finset.Ico_eq_empty (by omega), Finset.prod_empty, mul_one]

/-- The factorial routine computes the exact mathematical factorial on every
natural-number input. -/
lemma factorial_nat (m : ℕ) : factorial (m : ℚ) = .num (Nat.factorial m) := by
  unfold factorial
  rw [if_neg (by simp : ¬ (m : ℚ) < 0)]
  by_cases h01 : (m : ℚ) = 0 ∨ (m : ℚ) = 1
  · rw [if_pos h01]
    rcases h01 with h | h
    · have : m = 0 := by exact_mod_cast h
      subst this; rfl
    · have : m = 1 := by exact_mod_cast h
      subst this; rfl
  · rw [if_neg h01]
    have hm2 : 2 ≤ m := by
      rcases Nat.lt_or_ge m 2 with h | h
      · interval_cases m
        · exact absurd (Or.inl (by norm_num)) h01
        · exact absurd (Or.inr (by norm_num)) h01
      · exact h
    have hfloor : (⌊(m : ℚ)⌋).toNat = m := by
      rw [Int.floor_natCast]; exact Int.toNat_natCast m
    rw [hfloor, factLoop_eq m m 2 1 (by omega), one_mul]
    congr 1
    have h1 : ∏ j in Finset.Ico 1 (m + 1), (j : ℚ) = ∏ j in Finset.Ico 2 (m + 1), (j : ℚ) := by
      rw [Finset.prod_eq_prod_Ico_succ_bot (by omega : 1 < m + 1)]
      simp
    rw [← h1, ← Nat.cast_prod, Finset.prod_Ico_id_eq_factorial]

/-! ### Claim theorems for the numeric primitives -/

/-- C7: for every integer n with 0 &le; n &le; 20, factorial(n) is the exact
mathematical n! (the product of 1..n), and that value is exactly
representable as a float64 (it is m * 2 ^ e with m &lt; 2 ^ 53, so the
iterative float64 products of the source lose nothing); for every n &lt; 0,
factorial(n) returns the NaN sentinel. -/
theorem factorial_exact_and_negative_nan :
    (∀ n : ℕ, n ≤ 20 →
      factorial (n : ℚ) = .num (Nat.factorial n) ∧ float64Exact (Nat.factorial n)) ∧
    (∀ q : ℚ, q < 0 → factorial q = .nan) := by
  constructor
  · intro n hn
    refine ⟨factorial_nat n, ?_⟩
    unfold float64Exact
    interval_cases n <;> decide
  · intro q hq
    unfold factorial
    rw [if_pos hq]

/-- Witness for C7 at the concrete inputs n = 20 and q = -1. -/
theorem factorial_exact_and_negative_nan_witness :
    (factorial ((20 : ℕ) : ℚ) = .num (Nat.factorial 20) ∧ float64Exact (Nat.factorial 20)) ∧
    factorial (-1) = .nan :=
  ⟨factorial_exact_and_negative_nan.1 20 (by norm_num),
   factorial_exact_and_negative_nan.2 (-1) (by norm_num)⟩

/-! ### Supporting lemmas about the continued-fraction loop -/

/-- Characterization of one loop step from a state whose remainder b is a
finite value q: the accumulators are updated with a = floor q, and the new
remainder is infinite exactly when the fractional part of q is zero (the
division 1 / (b - a) then divides by zero). -/
lemma fracStep_num_eq (h1 h2 k1 k2 : JSVal ℚ) (q : ℚ) :
    fracStep ⟨h1, h2, k1, k2, .num q⟩ =
      ⟨((JSVal.num ((⌊q⌋ : ℤ) : ℚ)).mul h1).add h2, h1,
       ((JSVal.num ((⌊q⌋ : ℤ) : ℚ)).mul k1).add k2, k1,
       if Int.fract q = 0 then .inf true else .num (Int.fract q)⁻¹⟩ := by
  unfold fracStep
  simp only [JSVal.floor, JSVal.sub, JSVal.neg, JSVal.add, JSVal.div]
  have hb : q + -((⌊q⌋ : ℤ) : ℚ) = Int.fract q := by
    rw [← Int.self_sub_floor q]; ring
  congr 1
  rw [hb]
  by_cases h : Int.fract q = 0
  · rw [if_pos h, if_pos h, if_neg (by norm_num : ¬ (1 : ℚ) = 0),
      if_pos (by norm_num : (0 : ℚ) < 1)]
  · rw [if_neg h, if_neg h, one_div]

/-- Characterization of one loop step from a state whose remainder b is an
infinity: the new remainder is NaN. -/
lemma fracStep_inf_eq (h1 h2 k1 k2 : JSVal ℚ) (p : Bool) :
    fracStep ⟨h1, h2, k1, k2, .inf p⟩ =
      ⟨((JSVal.inf p).mul h1).add h2, h1,
       ((JSVal.inf p).mul k1).add k2, k1, .nan⟩ := by
  unfold fracStep
  simp only [JSVal.floor, JSVal.sub, JSVal.neg, JSVal.add, JSVal.div]
  congr 1
  rw [if_neg (by cases p <;> simp)]

/-- The state after the first iteration satisfies the loop invariant,
for every finite non-integer input. -/
lemma fracInv_init (v : ℚ) (hv : v.den ≠ 1) : FracInv (fracStep (fracInit v)) := by
  have habs : |v|.den ≠ 1 := by
    rcases abs_choice v with h | h <;> rw [h]
    · exact hv
    · rw [Rat.den_neg_eq_den]; exact hv
  have hfr : Int.fract |v| ≠ 0 := by
    intro h0
    have hq : |v| = ((⌊|v|⌋ : ℤ) : ℚ) := by
      refine sub_eq_zero.mp ?_
      rw [Int.self_sub_floor]; exact h0
    rw [hq] at habs
    exact habs (Rat.den_intCast _)
  have hfr_pos : 0 < Int.fract |v| := lt_of_le_of_ne (Int.fract_nonneg _) (Ne.symm hfr)
  have hfr_lt : Int.fract |v| < 1 := Int.fract_lt_one _
  rw [fracInit, fracStep_num_eq]
  refine ⟨⌊|v|⌋, 1, 1, 0, ?_, rfl, ?_, rfl, ?_, ?_, ?_, ?_, ?_, ?_⟩
  · simp [JSVal.mul, JSVal.add]
  · simp [JSVal.mul, JSVal.add]
  · exact Int.floor_nonneg.mpr (abs_nonneg v)
  · norm_num
  · right; norm_num
  · norm_num
  · norm_num
  · left
    refine ⟨(Int.fract |v|)⁻¹, by rw [if_neg hfr], ?_⟩
    exact (one_lt_inv₀ hfr_pos).mpr hfr_lt

/-- The loop invariant is preserved by a step taken from a state with
finite remainder. -/
lemma fracInv_step_num (s : FracState) (h : FracInv s) (q : ℚ)
    (hb : s.b = .num q) : FracInv (fracStep s) := by
  obtain ⟨u, v, x, y, hh1, hh2, hk1, hk2, hu, hv, huv, hx, hy, hbq⟩ := h
  have hq1 : 1 < q := by
    rcases hbq with ⟨q', hq', h1⟩ | hinf
    · rw [hb] at hq'; cases hq'; exact h1
    · rw [hb] at hinf; cases hinf
  have hfl : 1 ≤ ⌊q⌋ := by
    rw [Int.le_floor]; push_cast; exact le_of_lt hq1
  obtain ⟨s1, s2, s3, s4, s5⟩ := s
  cases hb
  rw [fracStep_num_eq]
  subst hh1; subst hh2; subst hk1; subst hk2
  simp only [JSVal.mul, JSVal.add]
  refine ⟨⌊q⌋ * u + v, u, ⌊q⌋ * x + y, x, by push_cast; rfl, rfl, by push_cast; rfl, rfl,
    ?_, hu, ?_, ?_, by omega, ?_⟩
  · positivity
  · left
    rcases huv with hu0 | hv0
    · nlinarith
    · nlinarith
  · nlinarith
  · by_cases hfr : Int.fract q = 0
    · right; rw [if_pos hfr]
    · left
      have hfr_pos : 0 < Int.fract q := lt_of_le_of_ne (Int.fract_nonneg _) (Ne.symm hfr)
      exact ⟨(Int.fract q)⁻¹, by rw [if_neg hfr],
        (one_lt_inv₀ hfr_pos).mpr (Int.fract_lt_one _)⟩

/-- A step taken from an invariant state with infinite remainder drives k1 to
positive infinity, after which the loop condition is false: the loop exits. -/
lemma frac_exit_of_inf (s : FracState) (h : FracInv s) (hb : s.b = .inf true)
    (value tol cap sign : ℚ) :
    (fracStep s).k1 = .inf true ∧ fracCond value tol cap sign (fracStep s) = false := by
  obtain ⟨u, v, x, y, hh1, hh2, hk1, hk2, hu, hv, huv, hx, hy, hbq⟩ := h
  obtain ⟨s1, s2, s3, s4, s5⟩ := s
  simp only at hb hh1 hh2 hk1 hk2
  subst hb; subst hh1; subst hh2; subst hk1; subst hk2
  rw [fracStep_inf_eq]
  have hk1' : ((JSVal.inf true).mul (.num (x : ℚ))).add (.num (y : ℚ)) = JSVal.inf true := by
    have hx0 : ¬ ((x : ℚ) = 0) := by
      intro h0; exact absurd (by exact_mod_cast h0) (by omega)
    have hxpos : (0 : ℚ) < (x : ℚ) := by exact_mod_cast (by omega : (0 : ℤ) < x)
    simp [JSVal.mul, JSVal.add, hx0, hxpos]
  constructor
  · exact hk1'
  · rw [fracCond]
    simp only [hk1']
    rw [JSVal.le]
    simp

/-- The termination measure strictly decreases at every step taken from a
state with finite remainder. -/
lemma fracMeasure_step (s : FracState) (q : ℚ) (hb : s.b = .num q) :
    fracMeasure (fracStep s) < fracMeasure s := by
  obtain ⟨s1, s2, s3, s4, s5⟩ := s
  cases hb
  rw [fracStep_num_eq]
  by_cases hfr : Int.fract q = 0
  · simp only [fracMeasure, if_pos hfr]
    omega
  · have hfr_pos : 0 < Int.fract q := lt_of_le_of_ne (Int.fract_nonneg _) (Ne.symm hfr)
    simp only [fracMeasure, if_neg hfr]
    have hlt := Rat.fract_inv_num_lt_num_of_pos hfr_pos
    have hpos : 0 < (Int.fract q).num := Rat.num_pos.mpr hfr_pos
    omega

/-- The continued-fraction loop exits (is not cut off by fuel) from every
invariant state, once the fuel exceeds the termination measure. -/
lemma fracLoop_isSome (value tol cap sign : ℚ) :
    ∀ (fuel : ℕ) (s : FracState), FracInv s → fracMeasure s < fuel →
      (fracLoop value tol cap sign fuel s).isSome = true := by
  intro fuel
  induction fuel with
  | zero => intro s _ h; omega
  | succ fuel ih =>
      intro s hinv hm
      rw [fracLoop]
      by_cases hc : fracCond value tol cap sign (fracStep s) = true
      · rw [if_pos hc]
        obtain ⟨u, v, x, y, hh1, hh2, hk1, hk2, hu, hv, huv, hx, hy, hbq⟩ := hinv
        rcases hbq with ⟨q, hbq, hq1⟩ | hbinf
        · have hinv' : FracInv (fracStep s) :=
            fracInv_step_num s ⟨u, v, x, y, hh1, hh2, hk1, hk2, hu, hv, huv, hx, hy,
              Or.inl ⟨q, hbq, hq1⟩⟩ q hbq
          have hm' : fracMeasure (fracStep s) < fuel := by
            have := fracMeasure_step s q hbq
            have hms : fracMeasure s ≤ fuel := by omega
            omega
          exact ih (fracStep s) hinv' hm'
        · have := frac_exit_of_inf s ⟨u, v, x, y, hh1, hh2, hk1, hk2, hu, hv, huv, hx, hy,
            Or.inr hbinf⟩ hbinf value tol cap sign
          rw [this.2] at hc
          cases hc
      · rw [if_neg hc]
        rfl

/-- Every invariant state from which the loop returns yields an exit state
of the expected shape. -/
lemma fracLoop_exitShape (value tol cap sign : ℚ) :
    ∀ (fuel : ℕ) (s sFin : FracState), FracInv s →
      fracLoop value tol cap sign fuel s = some sFin → FracExitShape sFin := by
  intro fuel
  induction fuel with
  | zero => intro s sFin _ h; cases h
  | succ fuel ih =>
      intro s sFin hinv hrun
      rw [fracLoop] at hrun
      obtain ⟨u, v, x, y, hh1, hh2, hk1, hk2, hu, hv, huv, hx, hy, hbq⟩ := hinv
      have hinv : FracInv s := ⟨u, v, x, y, hh1, hh2, hk1, hk2, hu, hv, huv, hx, hy, hbq⟩
      by_cases hc : fracCond value tol cap sign (fracStep s) = true
      · rw [if_pos hc] at hrun
        rcases hbq with ⟨q, hbq, hq1⟩ | hbinf
        · exact ih (fracStep s) sFin (fracInv_step_num s hinv q hbq) hrun
        · have := frac_exit_of_inf s hinv hbinf value tol cap sign
          rw [this.2] at hc
          cases hc
      · rw [if_neg hc] at hrun
        cases hrun
        rcases hbq with ⟨q, hbq, _⟩ | hbinf
        · have hinv' := fracInv_step_num s hinv q hbq
          obtain ⟨u', v', x', y', hh1', _, hk1', _, _, _, _, hx', _, _⟩ := hinv'
          exact Or.inl ⟨u', x', hh1', hk1', hx'⟩
        · exact Or.inr (frac_exit_of_inf s hinv hbinf value tol cap sign).1

/-- The denominator of the absolute value of a rational equals its own. -/
lemma den_abs (v : ℚ) : |v|.den = v.den := by
  rcases abs_choice v with h | h <;> rw [h]
  rw [Rat.den_neg_eq_den]

/-- The fractional part of a rational has numerator below the denominator of
the rational itself. -/
lemma fract_num_lt_den (q : ℚ) : (Int.fract q).num < q.den := by
  have h1 : (Int.fract q).num < (Int.fract q).den :=
    Rat.lt_one_iff_num_lt_denom.mp (Int.fract_lt_one q)
  have h2 : (Int.fract q).den ≤ q.den := by
    have hdvd : (Int.fract q).den ∣ q.den * ((((-⌊q⌋ : ℤ)) : ℚ)).den := by
      have : Int.fract q = q + (((-⌊q⌋ : ℤ)) : ℚ) := by
        rw [← Int.self_sub_floor q]; push_cast; ring
      rw [this]
      exact Rat.add_den_dvd q _
    rw [Rat.den_intCast, mul_one] at hdvd
    exact Nat.le_of_dvd q.pos hdvd
  omega

/-! ### Claim theorems for decimalToFraction -/

/-- C4: decimalToFraction never produces a fraction for a negative input:
at -1/2 (where the exact convergent -1/2 exists well inside cap and
tolerance) the decimal comes back unchanged, because the loop compares the
error against value * tolerance, which is negative for negative values, so
the loop can only stop through the cap or through NaN; the positive input
1/2 does produce the string 1/2. -/
theorem decimalToFraction_negative_input :
    decimalToFraction (.num (-(1 / 2 : ℚ))) (1 / 10 ^ 9) 1000000 = .inl (.num (-(1 / 2 : ℚ))) ∧
    decimalToFraction (.num (1 / 2 : ℚ)) (1 / 10 ^ 9) 1000000 = .inr "1/2" := by
  constructor <;> with_unfolding_all decide

/-- C5 counterexample: the claim that no division by zero occurs is false.
Already at input 1/2 the loop takes a second iteration (the condition holds
after the first), and that iteration computes 1 / (b - a) with b - a = 0:
the divisor is the number 0 and the quotient becomes Infinity.  The call
still terminates and returns the string 1/2. -/
theorem fracLoop_divides_by_zero_at_half :
    fracCond (1 / 2) (1 / 10 ^ 9) 1000000 1 (fracStep (fracInit (1 / 2))) = true ∧
    fracDivisor (fracStep (fracInit (1 / 2))) = .num 0 ∧
    (fracStep (fracStep (fracInit (1 / 2)))).b = .inf true ∧
    decimalToFraction (.num (1 / 2 : ℚ)) (1 / 10 ^ 9) 1000000 = .inr "1/2" := by
  refine ⟨?_, ?_, ?_, ?_⟩ <;> with_unfolding_all decide

/-- C5 (amended): for every finite non-integer input the continued-fraction
loop terminates within value.den + 3 iterations — the fuel decimalToFraction
passes — for every tolerance and cap; in particular there is no infinite
loop when b - a reaches zero (the division by zero yields Infinity, after
which the loop exits). -/
theorem fracLoop_terminates (value tol cap : ℚ) (hv : value.den ≠ 1) :
    (fracLoop value tol cap (if value < 0 then -1 else 1) (value.den + 3)
      (fracInit value)).isSome = true := by
  rw [show value.den + 3 = (value.den + 2) + 1 from rfl, fracLoop]
  by_cases hc : fracCond value tol cap (if value < 0 then -1 else 1)
      (fracStep (fracInit value)) = true
  · rw [if_pos hc]
    refine fracLoop_isSome value tol cap _ (value.den + 2) _ (fracInv_init value hv) ?_
    have hm0 : fracMeasure (fracInit value) = (Int.fract |value|).num.toNat + 1 := rfl
    have hstep : fracMeasure (fracStep (fracInit value)) < fracMeasure (fracInit value) :=
      fracMeasure_step (fracInit value) |value| rfl
    have hnum : (Int.fract |value|).num < value.den := by
      have := fract_num_lt_den |value|
      rwa [den_abs] at this
    omega
  · rw [if_neg hc]
    rfl

/-- Witness for C5 at the concrete input 1/2 with the default tolerance and
cap of the source. -/
theorem fracLoop_terminates_witness :
    (fracLoop (1 / 2) (1 / 10 ^ 9) 1000000 (if (1 / 2 : ℚ) < 0 then -1 else 1)
      ((1 / 2 : ℚ).den + 3) (fracInit (1 / 2))).isSome = true :=
  fracLoop_terminates (1 / 2) (1 / 10 ^ 9) 1000000 (by with_unfolding_all decide)

/-- C6: whenever decimalToFraction returns a fraction string, that string is
p/q for integers p and q with q positive, and p/q reproduces the input value
within the given tolerance (the post-loop check compares the absolute error
against the tolerance before the string is built). -/
theorem decimalToFraction_roundtrip (value tol cap : ℚ) (str : String)
    (h : decimalToFraction (.num value) tol cap = .inr str) :
    ∃ p q : ℤ, 0 < q ∧ str = toString p ++ "/" ++ toString q ∧
      |value - (p : ℚ) / (q : ℚ)| ≤ tol := by
  simp only [decimalToFraction] at h
  by_cases hden : value.den = 1
  · rw [if_pos hden] at h; exact Sum.noConfusion h
  rw [if_neg hden] at h
  set sgn : ℚ := if value < 0 then -1 else 1 with hsgn
  split at h
  · exact Sum.noConfusion h
  next s heq =>
  have hexit : FracExitShape s := by
    rw [show value.den + 3 = (value.den + 2) + 1 from rfl, fracLoop] at heq
    by_cases hc : fracCond value tol cap sgn (fracStep (fracInit value)) = true
    · rw [if_pos hc] at heq
      exact fracLoop_exitShape value tol cap sgn (value.den + 2) _ s
        (fracInv_init value hden) heq
    · rw [if_neg hc] at heq
      cases heq
      obtain ⟨u, v, x, y, hh1, _, hk1, _, _, _, _, hx, _, _⟩ := fracInv_init value hden
      exact Or.inl ⟨u, x, hh1, hk1, hx⟩
  by_cases hpost : (s.k1.gt (.num cap) || (fracErr value sgn s).gt (.num tol)) = true
  · rw [if_pos hpost] at h
    exact Sum.noConfusion h
  rw [if_neg hpost] at h
  rw [Bool.or_eq_true, not_or] at hpost
  obtain ⟨hc1, hc2⟩ := hpost
  rcases hexit with ⟨u, x, hh1, hk1, hx⟩ | hk1inf
  · have hxq : ¬ ((x : ℚ) = 0) := by
      intro h0
      exact absurd (by exact_mod_cast h0) (by omega : ¬ (x = 0))
    have hmul : (JSVal.num sgn).mul s.h1 =
        .num (((if value < 0 then -u else u : ℤ)) : ℚ) := by
      rw [hh1, hsgn]
      by_cases hvneg : value < 0
      · rw [if_pos hvneg, if_pos hvneg]
        show JSVal.num _ = _
        push_cast; ring_nf
      · rw [if_neg hvneg, if_neg hvneg]
        show JSVal.num _ = _
        norm_num
    have herr : fracErr value sgn s =
        .num |value - (((if value < 0 then -u else u : ℤ)) : ℚ) / (x : ℚ)| := by
      rw [fracErr, hk1, hmul]
      simp only [JSVal.sub, JSVal.neg, JSVal.add, JSVal.div, JSVal.abs]
      rw [if_neg hxq]
      simp only [JSVal.neg, JSVal.add, JSVal.abs]
      rw [← sub_eq_add_neg]
    have htol : |value - (((if value < 0 then -u else u : ℤ)) : ℚ) / (x : ℚ)| ≤ tol := by
      rw [herr] at hc2
      simp only [JSVal.gt, JSVal.lt, decide_eq_true_eq] at hc2
      exact not_lt.mp hc2
    refine ⟨(if value < 0 then -u else u : ℤ), x, by omega, ?_, htol⟩
    injection h with hstr
    rw [← hstr, hmul, hk1]
    have hden1 : ∀ z : ℤ, jsNumToString (.num ((z : ℤ) : ℚ)) = toString z := by
      intro z
      rw [jsNumToString]
      rw [if_pos (Rat.den_intCast z)]
      rw [Rat.num_intCast]
    rw [hden1, hden1]
  · exact absurd (by rw [hk1inf]; rfl) hc1

/-- Witness for C6: at input 1/2 with the default tolerance and cap the call
returns the string 1/2, and 1/2 divided out reproduces the input exactly. -/
theorem decimalToFraction_roundtrip_witness :
    ∃ p q : ℤ, 0 < q ∧ "1/2" = toString p ++ "/" ++ toString q ∧
      |(1 / 2 : ℚ) - (p : ℚ) / (q : ℚ)| ≤ 1 / 10 ^ 9 :=
  decimalToFraction_roundtrip (1 / 2) (1 / 10 ^ 9) 1000000 "1/2"
    (by with_unfolding_all decide)

/-! ### Supporting lemmas about the implicit-multiplication passes -/

/-- A consuming insertion pass ignores a head character not matched by m1. -/
lemma pass_cons_not_m1 (m1 m2 : Char → Bool) (c : Char) (h : m1 c = false)
    (cs : List Char) :
    insertStarPass m1 m2 (c :: cs) = c :: insertStarPass m1 m2 cs := by
  cases cs with
  | nil => rfl
  | cons c2 cs2 =>
      rw [insertStarPass, if_neg (by rw [h]; simp)]

/-- A walking insertion pass ignores a head character not matched by m1. -/
lemma walk_cons_not_m1 (m1 m2 : Char → Bool) (c : Char) (h : m1 c = false)
    (cs : List Char) :
    walkInsert m1 m2 (c :: cs) = c :: walkInsert m1 m2 cs := by
  cases cs with
  | nil => rfl
  | cons c2 cs2 =>
      rw [walkInsert, if_neg (by rw [h]; simp)]

/-- A walking insertion pass keeps the head character in place. -/
lemma walk_head (m1 m2 : Char → Bool) (c : Char) (cs : List Char) :
    ∃ t, walkInsert m1 m2 (c :: cs) = c :: t := by
  cases cs with
  | nil => exact ⟨[], rfl⟩
  | cons c2 cs2 =>
      by_cases h : (m1 c && m2 c2) = true
      · exact ⟨'*' :: walkInsert m1 m2 (c2 :: cs2), by rw [walkInsert, if_pos h]⟩
      · exact ⟨walkInsert m1 m2 (c2 :: cs2), by rw [walkInsert, if_neg h]⟩

/-- When no character matched by m2 is matched by m1, the consuming
left-to-right pass agrees with the non-consuming walk: the character
consumed as the right half of a match can never start the next match, so
consuming it changes nothing. -/
lemma insertStarPass_eq_walk (m1 m2 : Char → Bool)
    (hdisj : ∀ c, m2 c = true → m1 c = false) :
    ∀ l, insertStarPass m1 m2 l = walkInsert m1 m2 l := by
  intro l
  induction l with
  | nil => rfl
  | cons c1 tail ih =>
      cases tail with
      | nil => rfl
      | cons c2 cs =>
          by_cases h : (m1 c1 && m2 c2) = true
          · have hm2 : m2 c2 = true := by
              have h2 := h
              rw [Bool.and_eq_true] at h2
              exact h2.2
            have hm1 : m1 c2 = false := hdisj c2 hm2
            have hcs : insertStarPass m1 m2 cs = walkInsert m1 m2 cs := by
              have h2 := ih
              rw [pass_cons_not_m1 m1 m2 c2 hm1 cs, walk_cons_not_m1 m1 m2 c2 hm1 cs] at h2
              exact List.tail_eq_of_cons_eq h2
            rw [insertStarPass, walkInsert, if_pos h, if_pos h,
              walk_cons_not_m1 m1 m2 c2 hm1 cs, hcs]
          · rw [insertStarPass, walkInsert, if_neg h, if_neg h, ih]

/-- Characters matched by the second class of pass 1 (letters and open
parenthesis) are not digits. -/
lemma disjA : ∀ c : Char, (isAlphaCh c || decide (c = '(')) = true → isDigitCh c = false := by
  intro c h
  by_contra hd
  rw [Bool.not_eq_false] at hd
  simp only [isDigitCh, Bool.and_eq_true, decide_eq_true_eq] at hd
  rw [Bool.or_eq_true] at h
  rcases h with ha | hp
  · simp only [isAlphaCh, Bool.or_eq_true, Bool.and_eq_true, decide_eq_true_eq] at ha
    omega
  · have hc : c = '(' := by simpa using hp
    subst hc
    simp at hd

/-- Characters matched by the second class of passes 2 and 3 are not close
parentheses. -/
lemma disjB : ∀ c : Char, (isAlphaCh c || isDigitCh c || decide (c = '(')) = true →
    decide (c = ')') = false := by
  intro c h
  by_contra hc
  rw [Bool.not_eq_false, decide_eq_true_eq] at hc
  subst hc
  exact absurd h (by decide)

/-- Characters matched by the second class of passes 2 and 3 are not
factorial marks. -/
lemma disjC : ∀ c : Char, (isAlphaCh c || isDigitCh c || decide (c = '(')) = true →
    decide (c = '!') = false := by
  intro c h
  by_contra hc
  rw [Bool.not_eq_false, decide_eq_true_eq] at hc
  subst hc
  exact absurd h (by decide)

/-- The three consuming source passes, in order, agree with the three
non-consuming walks. -/
lemma insertImplicitMult_eq_walks (cs : List Char) :
    insertImplicitMult cs = walkC (walkB (walkA cs)) := by
  rw [insertImplicitMult, insertMult1, insertMult2, insertMult3, walkA, walkB, walkC,
    insertStarPass_eq_walk _ _ disjA, insertStarPass_eq_walk _ _ disjB,
    insertStarPass_eq_walk _ _ disjC]

/-- The composition of the three walks inserts a star at exactly the
adjacencies of the three specification cases. -/
lemma walk_composite : ∀ cs : List Char, walkC (walkB (walkA cs)) = specInsertMult cs := by
  intro cs
  induction cs with
  | nil => rfl
  | cons c1 tail ih =>
      cases tail with
      | nil => rfl
      | cons c2 cs2 =>
          obtain ⟨tA, htA⟩ : ∃ t, walkA (c2 :: cs2) = c2 :: t := walk_head _ _ c2 cs2
          obtain ⟨tB, htB⟩ : ∃ t, walkB (c2 :: tA) = c2 :: t := walk_head _ _ c2 tA
          by_cases hA : (isDigitCh c1 && (isAlphaCh c2 || decide (c2 = '('))) = true
          · have hc1p : decide (c1 = ')') = false := by
              rw [Bool.and_eq_true] at hA
              by_contra hcp
              rw [Bool.not_eq_false, decide_eq_true_eq] at hcp
              subst hcp
              exact absurd hA.1 (by decide)
            have hc1e : decide (c1 = '!') = false := by
              rw [Bool.and_eq_true] at hA
              by_contra hcp
              rw [Bool.not_eq_false, decide_eq_true_eq] at hcp
              subst hcp
              exact absurd hA.1 (by decide)
            have e1 : walkA (c1 :: c2 :: cs2) = c1 :: '*' :: walkA (c2 :: cs2) := by
              rw [walkA, walkInsert, if_pos hA, ← walkA]
            have e2 : walkB (c1 :: '*' :: walkA (c2 :: cs2)) =
                c1 :: '*' :: walkB (walkA (c2 :: cs2)) := by
              rw [walkB, walk_cons_not_m1 _ _ c1 hc1p, walk_cons_not_m1 _ _ '*' (by decide),
                ← walkB]
            have e3 : walkC (c1 :: '*' :: walkB (walkA (c2 :: cs2))) =
                c1 :: '*' :: walkC (walkB (walkA (c2 :: cs2))) := by
              rw [walkC, walk_cons_not_m1 _ _ c1 hc1e, walk_cons_not_m1 _ _ '*' (by decide),
                ← walkC]
            rw [e1, e2, e3, ih, specInsertMult,
              if_pos (by rw [Bool.or_eq_true, Bool.or_eq_true]; exact Or.inl (Or.inl hA))]
          · by_cases hB : (decide (c1 = ')') &&
                (isAlphaCh c2 || isDigitCh c2 || decide (c2 = '('))) = true
            · have hB2 : (isAlphaCh c2 || isDigitCh c2 || decide (c2 = '(')) = true := by
                rw [Bool.and_eq_true] at hB
                exact hB.2
              have hc1 : c1 = ')' := by
                rw [Bool.and_eq_true] at hB
                simpa using hB.1
              subst hc1
              have e1 : walkA (')' :: c2 :: cs2) = ')' :: walkA (c2 :: cs2) := by
                rw [walkA, walk_cons_not_m1 _ _ ')' (by decide), ← walkA]
              have e2 : walkB (')' :: c2 :: tA) = ')' :: '*' :: walkB (c2 :: tA) := by
                rw [walkB, walkInsert,
                  if_pos (by rw [Bool.and_eq_true]; exact ⟨by decide, hB2⟩), ← walkB]
              have e3 : walkC (')' :: '*' :: walkB (c2 :: tA)) =
                  ')' :: '*' :: walkC (walkB (c2 :: tA)) := by
                rw [walkC, walk_cons_not_m1 _ _ ')' (by decide),
                  walk_cons_not_m1 _ _ '*' (by decide), ← walkC]
              rw [e1, htA, e2, e3, ← htA, ih, specInsertMult,
                if_pos (by rw [Bool.or_eq_true, Bool.or_eq_true]; exact Or.inl (Or.inr hB))]
            · by_cases hC : (decide (c1 = '!') &&
                  (isAlphaCh c2 || isDigitCh c2 || decide (c2 = '('))) = true
              · have hC2 : (isAlphaCh c2 || isDigitCh c2 || decide (c2 = '(')) = true := by
                  rw [Bool.and_eq_true] at hC
                  exact hC.2
                have hc1 : c1 = '!' := by
                  rw [Bool.and_eq_true] at hC
                  simpa using hC.1
                subst hc1
                have e1 : walkA ('!' :: c2 :: cs2) = '!' :: walkA (c2 :: cs2) := by
                  rw [walkA, walk_cons_not_m1 _ _ '!' (by decide), ← walkA]
                have e2 : walkB ('!' :: c2 :: tA) = '!' :: walkB (c2 :: tA) := by
                  rw [walkB, walk_cons_not_m1 _ _ '!' (by decide), ← walkB]
                have e3 : walkC ('!' :: c2 :: tB) = '!' :: '*' :: walkC (c2 :: tB) := by
                  rw [walkC, walkInsert,
                    if_pos (by rw [Bool.and_eq_true]; exact ⟨by decide, hC2⟩), ← walkC]
                rw [e1, htA, e2, htB, e3, ← htB, ← htA, ih, specInsertMult,
                  if_pos (by rw [Bool.or_eq_true, Bool.or_eq_true]; exact Or.inr hC)]
              · have e1 : walkA (c1 :: c2 :: cs2) = c1 :: walkA (c2 :: cs2) := by
                  rw [walkA, walkInsert, if_neg hA, ← walkA]
                have e2 : walkB (c1 :: c2 :: tA) = c1 :: walkB (c2 :: tA) := by
                  rw [walkB, walkInsert, if_neg hB, ← walkB]
                have e3 : walkC (c1 :: c2 :: tB) = c1 :: walkC (c2 :: tB) := by
                  rw [walkC, walkInsert, if_neg hC, ← walkC]
                have hfalse : ¬ ((isDigitCh c1 && (isAlphaCh c2 || decide (c2 = '(')) ||
                    decide (c1 = ')') && (isAlphaCh c2 || isDigitCh c2 || decide (c2 = '(')) ||
                    decide (c1 = '!') && (isAlphaCh c2 || isDigitCh c2 || decide (c2 = '('))) = true) := by
                  intro h
                  rw [Bool.or_eq_true, Bool.or_eq_true] at h
                  exact h.elim (fun h2 => h2.elim hA hB) hC
                rw [e1, htA, e2, htB, e3, ← htB, ← htA, ih, specInsertMult, if_neg hfalse]

/-- Reduction of evaluateExpression when the normalized expression parses. -/
lemma evaluateExpression_parse_ok {e : String} (he : ¬ e = "") {ast : AST}
    (hp : parse (normalize e) = .ok ast) (m : AngleMode) :
    evaluateExpression e m =
      if ¬ (evalAST realLib m ast).isFinite then .inr "Can\x27t divide by 0"
      else if (evalAST realLib m ast).isNaN then .inr "Invalid Input"
      else .inl (evalAST realLib m ast) := by
  rw [evaluateExpression, if_neg he, hp]

/-- Reduction of evaluateExpression when the normalized expression fails to
parse. -/
lemma evaluateExpression_parse_error {e : String} (he : ¬ e = "")
    (hp : parse (normalize e) = .error ()) (m : AngleMode) :
    evaluateExpression e m = .inr "Format Error" := by
  rw [evaluateExpression, if_neg he, hp]

/-! ### Claim theorems for evaluateExpression -/

/-- C3: the total-function claim fails on the source.  The normalization
passes leave the expression Function(\x27for(;;);\x27).call() completely
unchanged — it contains no digit, no e, no double minus, and none of the
implicit-multiplication adjacencies — so it reaches the code-construction
step verbatim, where new Function executes the host Function constructor
and the built loop runs forever: evaluateExpression never returns a value
at all for this input.  The concrete example of the claim does hold: 2+*3
resolves to the Format Error result in both modes. -/
theorem hostile_input_reaches_evaluation :
    normalize "Function(\x27for(;;);\x27).call()" = "Function(\x27for(;;);\x27).call()" ∧
    (∀ m : AngleMode, evaluateExpression "2+*3" m = .inr "Format Error") := by
  constructor
  · with_unfolding_all decide
  · intro m
    exact evaluateExpression_parse_error (by decide)
      (by with_unfolding_all rfl) m

/-- C1: the sanitization passes leave an expression referring to the host
Math object through unchanged, all the way to the code-construction step
(the tokens Math, the point and the comma are outside the supported
grammar, yet nothing removes or rejects them before evaluation). -/
theorem sanitizer_passes_host_reference :
    normalize "Math.min(1,2)" = "Math.min(1,2)" := by
  with_unfolding_all decide

/-- C2: a NaN numeric result does not yield the invalid-input message: JS
isFinite(NaN) is false, so the non-finite check fires first and sqrt(-1)
comes back as the divide-by-zero message; likewise formatResult of NaN is
the divide-by-zero message, not the invalid-input one. -/
theorem nan_surfaces_as_divide_by_zero :
    evaluateExpression "sqrt(-1)" .deg = .inr "Can\x27t divide by 0" ∧
    formatResult (.inl .nan) = "Can\x27t divide by 0" ∧
    formatResult (.inl (.inf true)) = "Can\x27t divide by 0" := by
  refine ⟨?_, rfl, rfl⟩
  rw [evaluateExpression_parse_ok (by decide)
    (show parse (normalize "sqrt(-1)") = .ok (.call .sqrt (.neg (.lit 1))) from
      by with_unfolding_all rfl) .deg]
  have h1 : evalAST realLib .deg (.call .sqrt (.neg (.lit 1))) = .nan := by
    show jsSqrt (.num (-((1 : ℚ) : ℝ))) = .nan
    rw [jsSqrt]
    rw [if_pos (by norm_num)]
  rw [h1]
  rfl

/-- C8: in degree mode the six trig functions receive their argument
multiplied by pi / 180, in radian mode unchanged; sin(90) evaluates to the
number 1 in degree mode and to the number sin(90 radians) in radian mode. -/
theorem trig_angle_mode_conversion :
    (∀ (m : AngleMode) (a : AST),
      evalAST realLib m (.call .sin a) = realLib.sin (trigArg realLib m (evalAST realLib m a)) ∧
      evalAST realLib m (.call .cos a) = realLib.cos (trigArg realLib m (evalAST realLib m a)) ∧
      evalAST realLib m (.call .tan a) = realLib.tan (trigArg realLib m (evalAST realLib m a)) ∧
      evalAST realLib m (.call .csc a) =
        (JSVal.num 1).div (realLib.sin (trigArg realLib m (evalAST realLib m a))) ∧
      evalAST realLib m (.call .sec a) =
        (JSVal.num 1).div (realLib.cos (trigArg realLib m (evalAST realLib m a))) ∧
      evalAST realLib m (.call .cot a) =
        (JSVal.num 1).div (realLib.tan (trigArg realLib m (evalAST realLib m a)))) ∧
    (∀ x : JSVal ℝ, trigArg realLib .deg x = x.mul (.num (Real.pi / 180)) ∧
      trigArg realLib .rad x = x) ∧
    evaluateExpression "sin(90)" .deg = .inl (.num 1) ∧
    evaluateExpression "sin(90)" .rad = .inl (.num (Real.sin 90)) := by
  refine ⟨fun m a => ⟨rfl, rfl, rfl, rfl, rfl, rfl⟩, fun x => ⟨rfl, rfl⟩, ?_, ?_⟩
  · rw [evaluateExpression_parse_ok (by decide)
      (show parse (normalize "sin(90)") = .ok (.call .sin (.lit 90)) from
        by with_unfolding_all rfl) .deg]
    have h1 : evalAST realLib .deg (.call .sin (.lit 90)) =
        .num (Real.sin (((90 : ℚ) : ℝ) * (Real.pi / 180))) := rfl
    rw [h1]
    have h2 : Real.sin (((90 : ℚ) : ℝ) * (Real.pi / 180)) = 1 := by
      have h3 : ((90 : ℚ) : ℝ) * (Real.pi / 180) = Real.pi / 2 := by
        push_cast
        ring
      rw [h3, Real.sin_pi_div_two]
    rw [h2]
    rfl
  · rw [evaluateExpression_parse_ok (by decide)
      (show parse (normalize "sin(90)") = .ok (.call .sin (.lit 90)) from
        by with_unfolding_all rfl) .rad]
    have h1 : evalAST realLib .rad (.call .sin (.lit 90)) =
        .num (Real.sin ((90 : ℚ) : ℝ)) := rfl
    rw [h1]
    have h2 : ((90 : ℚ) : ℝ) = (90 : ℝ) := by push_cast; ring
    rw [h2]
    rfl

/-- C9: csc, sec and cot evaluate as one divided by the value of sin, cos
and tan respectively (the reciprocal taken after the trig function and its
angle conversion), and csc(0) is an infinite value surfaced as the
divide-by-zero error in both angle modes. -/
theorem csc_reciprocal_of_sin :
    (∀ (m : AngleMode) (a : AST),
      evalAST realLib m (.call .csc a) = (JSVal.num 1).div (evalAST realLib m (.call .sin a)) ∧
      evalAST realLib m (.call .sec a) = (JSVal.num 1).div (evalAST realLib m (.call .cos a)) ∧
      evalAST realLib m (.call .cot a) = (JSVal.num 1).div (evalAST realLib m (.call .tan a))) ∧
    evaluateExpression "csc(0)" .deg = .inr "Can\x27t divide by 0" ∧
    evaluateExpression "csc(0)" .rad = .inr "Can\x27t divide by 0" := by
  refine ⟨fun m a => ⟨rfl, rfl, rfl⟩, ?_, ?_⟩
  · rw [evaluateExpression_parse_ok (by decide)
      (show parse (normalize "csc(0)") = .ok (.call .csc (.lit 0)) from
        by with_unfolding_all rfl) .deg]
    have h1 : evalAST realLib .deg (.call .csc (.lit 0)) = .inf true := by
      show (JSVal.num 1).div (jsSin (.num (((0 : ℚ) : ℝ) * (Real.pi / 180)))) = .inf true
      have h2 : (((0 : ℚ) : ℝ) * (Real.pi / 180)) = 0 := by norm_num
      rw [h2]
      show (JSVal.num 1).div (.num (Real.sin 0)) = .inf true
      rw [Real.sin_zero, JSVal.div]
      rw [if_pos rfl, if_neg (one_ne_zero), if_pos one_pos]
    rw [h1]
    rfl
  · rw [evaluateExpression_parse_ok (by decide)
      (show parse (normalize "csc(0)") = .ok (.call .csc (.lit 0)) from
        by with_unfolding_all rfl) .rad]
    have h1 : evalAST realLib .rad (.call .csc (.lit 0)) = .inf true := by
      show (JSVal.num 1).div (jsSin (.num ((0 : ℚ) : ℝ))) = .inf true
      have h2 : ((0 : ℚ) : ℝ) = 0 := by norm_num
      rw [h2]
      show (JSVal.num 1).div (.num (Real.sin 0)) = .inf true
      rw [Real.sin_zero, JSVal.div]
      rw [if_pos rfl, if_neg (one_ne_zero), if_pos one_pos]
    rw [h1]
    rfl

/-- C10: the normalizer inserts an explicit multiply in exactly the three
adjacency cases of the specification — digit before letter or open
parenthesis, close parenthesis before digit, letter or open parenthesis,
and factorial mark before digit, letter or open parenthesis — and the full
pipeline evaluates 2(3+4) to the number 14. -/
theorem implicit_mult_exactly_three_cases :
    (∀ cs : List Char, insertImplicitMult cs = specInsertMult cs) ∧
    evaluateExpression "2(3+4)" .deg = .inl (.num 14) := by
  constructor
  · intro cs
    rw [insertImplicitMult_eq_walks, walk_composite]
  · rw [evaluateExpression_parse_ok (by decide)
      (show parse (normalize "2(3+4)") = .ok (.mul (.lit 2) (.add (.lit 3) (.lit 4))) from
        by with_unfolding_all rfl) .deg]
    have h1 : evalAST realLib .deg (.mul (.lit 2) (.add (.lit 3) (.lit 4))) =
        .num (((2 : ℚ) : ℝ) * (((3 : ℚ) : ℝ) + ((4 : ℚ) : ℝ))) := rfl
    rw [h1]
    have h2 : ((2 : ℚ) : ℝ) * (((3 : ℚ) : ℝ) + ((4 : ℚ) : ℝ)) = 14 := by
      push_cast
      norm_num
    rw [h2]
    rfl

end DualCalc
